import Mathlib

/-!
Shallow embedding of the reporting/aggregation module `format/print.go` of the
insomn14/amass repository, together with theorems settling the frozen claims
about it.

Modelling conventions:

* A Go `string` is modelled as a `List Char` (its sequence of runes).  Go's
  `len(s)` and the indices returned by `strings.Index` / `strings.LastIndex`
  are *byte* counts; they are modelled by `bsum` / `goIndexOfChar` /
  `goLastIndexOfChar`, which sum `Char.utf8Size` exactly as UTF-8 encoding
  does.  Literal inputs are written `("...").data`.
* A Go runtime panic (out-of-range index or slice bound) is modelled by
  `Option`: `none` means the code panics, `some v` means it returns `v`.
* Go `map` values are modelled as association lists with first-match lookup
  (`mapGet`) and replace-or-append update (`mapSet`); map iteration order is
  modelled by list order, which none of the proved properties depend on.
-/

/-- `isPassChar c` holds for the four characters that `censorString`
(print.go:336-348) leaves unchanged inside the mask window. -/
def isPassChar (c : Char) : Prop := c = '.' ∨ c = '/' ∨ c = '-' ∨ c = ' '

instance (c : Char) : Decidable (isPassChar c) := by unfold isPassChar; infer_instance

/-- One iteration of the `censorString` loop body: a pass-through character is
kept, anything else becomes the mask glyph `'x'` (print.go:338-345). -/
def maskChar (c : Char) : Char := if isPassChar c then c else 'x'

/-- UTF-8 byte length of a rune sequence: Go's `len` on a `string`. -/
def bsum (s : List Char) : Nat := (s.map Char.utf8Size).sum

/-- The loop `for i := start; i < end; i++ { ... runes[i] ... }` of
`censorString`, with fuel `n` = remaining iteration count.  Accessing
`runes[i]` with `i < 0` or `i ≥ len(runes)` is a Go panic, modelled as
`none`.  Writing `runes[i] = 'x'` only off pass-through characters is
modelled as setting index `i` to `maskChar runes[i]`. -/
def censorAux : Nat → List Char → Int → Option (List Char)
  | 0, runes, _ => some runes
  | n + 1, runes, i =>
    if 0 ≤ i ∧ i < (runes.length : Int) then
      censorAux n (runes.set i.toNat (maskChar (runes.getD i.toNat 'x'))) (i + 1)
    else none

/-- `censorString(input, start, end)` (print.go:336-348).  The loop runs
`max(end-start, 0)` times starting at `i = start`. -/
def censorString (input : List Char) (start e : Int) : Option (List Char) :=
  censorAux (e - start).toNat input start

/-- Byte index of the first occurrence of rune `c` in `s`, or `-1`:
`strings.Index(s, string(c))` for a one-rune needle. -/
def goIndexOfChar : List Char → Char → Int
  | [], _ => -1
  | a :: rest, c =>
    if a = c then 0
    else if goIndexOfChar rest c < 0 then -1
    else (a.utf8Size : Int) + goIndexOfChar rest c

/-- Byte index of the last occurrence of rune `c` in `s`, or `-1`:
`strings.LastIndex(s, string(c))` for a one-rune needle. -/
def goLastIndexOfChar : List Char → Char → Int
  | [], _ => -1
  | a :: rest, c =>
    if 0 ≤ goLastIndexOfChar rest c then (a.utf8Size : Int) + goLastIndexOfChar rest c
    else if a = c then 0 else -1

/-- `censorDomain` (print.go:324-326): mask from the first `'.'` to the byte
length of the input. -/
def censorDomain (input : List Char) : Option (List Char) :=
  censorString input (goIndexOfChar input '.') (bsum input : Int)

/-- `censorIP` (print.go:328-330): mask from 0 to the last `'.'`. -/
def censorIP (input : List Char) : Option (List Char) :=
  censorString input 0 (goLastIndexOfChar input '.')

/-- `censorNetBlock` (print.go:332-334): mask from 0 to the first `'/'`. -/
def censorNetBlock (input : List Char) : Option (List Char) :=
  censorString input 0 (goIndexOfChar input '/')

/-- `isPrefixL p s` decides whether `p` is a leading segment of `s`
(`strings.HasPrefix`). -/
def isPrefixL : List Char → List Char → Bool
  | [], _ => true
  | _ :: _, [] => false
  | p :: ps, c :: cs => p == c && isPrefixL ps cs

/-- `hasSuffix s suffix` is `strings.HasSuffix(s, suffix)`. -/
def hasSuffix (s suffix : List Char) : Bool := isPrefixL suffix.reverse s.reverse

/-- `strings.TrimSuffix(s, suffix)`: drop the suffix when present, otherwise
return `s` unchanged.  Byte-based slicing at a matched-suffix boundary
coincides with dropping that many runes. -/
def trimSuffix (s suffix : List Char) : List Char :=
  if hasSuffix s suffix then s.take (s.length - suffix.length) else s

/-- White-space test used by `strings.TrimSpace` (`unicode.IsSpace`) on its
Latin-1 range; White_Space code points above U+00FF are not enumerated here
(no claim exercises them). -/
def isSpaceGo (c : Char) : Bool :=
  c == ' ' || c == '\t' || c == '\n' || c == '\x0b' || c == '\x0c' || c == '\r' ||
    c == '\x85' || c == '\xa0'

/-- `strings.TrimSpace`: remove leading and trailing white space. -/
def trimSpace (s : List Char) : List Char :=
  ((s.dropWhile isSpaceGo).reverse.dropWhile isSpaceGo).reverse

/-- Worker of `goSplit` with fuel bounding the recursion depth (the scanned
list shrinks by at least one rune per step, so fuel `s.length` suffices). -/
def goSplitAux (sep : List Char) : Nat → List Char → List Char → List (List Char)
  | _, [], acc => [acc.reverse]
  | 0, s, acc => [acc.reverse ++ s]
  | fuel + 1, c :: rest, acc =>
    if isPrefixL sep (c :: rest) then
      acc.reverse :: goSplitAux sep fuel ((c :: rest).drop sep.length) []
    else goSplitAux sep fuel rest (c :: acc)

/-- `strings.Split(s, sep)` for non-empty `sep`: split on each leftmost
non-overlapping occurrence; with empty `sep` Go explodes into runes. -/
def goSplit (s sep : List Char) : List (List Char) :=
  if sep.isEmpty then s.map (fun c => [c]) else goSplitAux sep s.length s []

/-- Association-list lookup with first-match semantics: Go `m[k]` (presence). -/
def mapGet {K V : Type} [DecidableEq K] : List (K × V) → K → Option V
  | [], _ => none
  | (k, v) :: rest, key => if k = key then some v else mapGet rest key

/-- Association-list update: Go `m[k] = v` (replace existing key, else add). -/
def mapSet {K V : Type} [DecidableEq K] : List (K × V) → K → V → List (K × V)
  | [], key, v => [(key, v)]
  | (k, w) :: rest, key, v =>
    if k = key then (k, v) :: rest else (k, w) :: mapSet rest key v

/-- The value stored under one ASN key of the
`map[string]map[string]interface{}` built by `PrintEnumerationSummary`
(print.go:88-92): organization string plus netblock and FQDN string slices. -/
structure ASNEntry where
  organization : List Char
  netblocks : List (List Char)
  fqdns : List (List Char)
deriving DecidableEq

/-- The two summary maps of `PrintEnumerationSummary` (print.go:64-65):
`asns` (ASN id → entry) and `fqdns` (FQDN → resolved target). -/
structure SummaryState where
  asns : List (List Char × ASNEntry)
  fqdns : List (List Char × List Char)
deriving DecidableEq

/-- The fixed triple separator `" --> "` (print.go:69). -/
def sepArrow : List Char := (" --> ").data

/-- Suffix tag `" (Netblock)"` (print.go:78). -/
def netblockTag : List Char := (" (Netblock)").data

/-- Suffix tag `"(ASN)"` as checked at print.go:84 (note: no leading space). -/
def asnTag : List Char := ("(ASN)").data

/-- Suffix tag `"(RIROrganization)"` as checked at print.go:87. -/
def rirTag : List Char := ("(RIROrganization)").data

/-- Suffix `" (RIROrganization)"` as trimmed at print.go:89. -/
def rirTagSp : List Char := (" (RIROrganization)").data

/-- Suffix tag `"(FQDN)"` (print.go:94). -/
def fqdnTag : List Char := ("(FQDN)").data

/-- Suffix tag `"(IPAddress)"` (print.go:96). -/
def ipTag : List Char := ("(IPAddress)").data

/-- One iteration of the record-parsing loop of `PrintEnumerationSummary`
(print.go:68-106).  `none` models the Go panic at print.go:85: the guard
checks `HasSuffix(left, "(ASN)")` (5 bytes) but slices
`left[:len(left)-len(" (ASN)")]` (6 bytes); when `left` is exactly `"(ASN)"`
the high bound is `-1`, a slice-bounds panic.  (With the guard satisfied the
byte condition `len(left) < 6` is equivalent to the rune condition used here,
and for a 1-byte rune before the tag the byte slice drops exactly one rune;
a multi-byte rune there would make Go keep a partial-rune byte prefix, an
invalid-UTF-8 corner no claim exercises.) -/
def processRecord (st : SummaryState) (record : List Char) : Option SummaryState :=
  let parts := goSplit record sepArrow
  if parts.length < 3 then some st
  else
    let left := trimSpace (parts.getD 0 [])
    let value := trimSpace (parts.getD 2 [])
    if hasSuffix value netblockTag then
      let ntblocks := trimSuffix value netblockTag
      some { st with
              asns := st.asns.map fun kv =>
                (kv.1, { kv.2 with netblocks := kv.2.netblocks ++ [ntblocks] }) }
    else if hasSuffix left asnTag then
      if left.length < 6 then none
      else
        let asnID := left.take (left.length - 6)
        let asnDetails := goSplit value [' ']
        if 2 ≤ asnDetails.length ∧ hasSuffix value rirTag then
          some { st with
                  asns := mapSet st.asns asnID
                    { organization := trimSuffix value rirTagSp
                      netblocks := []
                      fqdns := [] } }
        else some st
    else if hasSuffix left fqdnTag then
      if hasSuffix left fqdnTag && hasSuffix value ipTag then
        some { st with
                fqdns := mapSet st.fqdns left value
                asns := st.asns.map fun kv =>
                  (kv.1, { kv.2 with fqdns := kv.2.fqdns ++ [left] }) }
      else some { st with fqdns := mapSet st.fqdns left value }
    else some st

/-- The `for _, record := range records` fold of `PrintEnumerationSummary`;
a panic in any iteration aborts the whole run (`none`). -/
def runRecords : SummaryState → List (List Char) → Option SummaryState
  | st, [] => some st
  | st, r :: rest =>
    match processRecord st r with
    | none => none
    | some st' => runRecords st' rest

/-- `strings.Join(xs, ", ")` (print.go:198). -/
def commaJoin : List (List Char) → List Char
  | [] => []
  | [x] => x
  | x :: rest => x ++ (", ").data ++ commaJoin rest

/-- Concatenation of a list of write bursts, in order. -/
def concatAll {α : Type} : List (List α) → List α
  | [] => []
  | x :: xs => x ++ concatAll xs

/-- The per-ASN header burst written by `SaveASNDetailsToFile` (print.go:199):
`fmt.Sprintf("ASN: %s - %s\n\tNetblocks: %s\n\tSubdomains: %d\n", asnID, org,
netblocks, len(fqdns))` — the count written is `len(fqdns)`, the size of the
whole FQDN map, not of the entry's own FQDN list. -/
def asnDetailLine (asnID : List Char) (details : ASNEntry)
    (fqdns : List (List Char × List Char)) : List Char :=
  ("ASN: ").data ++ asnID ++ (" - ").data ++ details.organization ++
    ("\n\tNetblocks: ").data ++ commaJoin details.netblocks ++
    ("\n\tSubdomains: ").data ++ (Nat.repr fqdns.length).data ++ ("\n").data

/-- One FQDN line written by `SaveASNDetailsToFile` (print.go:205-212); when
the stored target is itself FQDN-tagged the map is chased once
(`tmpIP := fqdns[ip]`, a missing key giving Go's zero string). -/
def fqdnDetailLine (fqdns : List (List Char × List Char))
    (kv : List Char × List Char) : List Char :=
  if hasSuffix kv.2 fqdnTag then
    trimSuffix kv.1 ((" (FQDN)").data) ++ (": ").data ++
      trimSuffix ((mapGet fqdns kv.2).getD []) ((" (IPAddress)").data) ++ ("\n").data
  else
    trimSuffix kv.1 ((" (FQDN)").data) ++ (": ").data ++
      trimSuffix kv.2 ((" (IPAddress)").data) ++ ("\n").data

/-- The ordered sequence of `file.WriteString` arguments issued by
`SaveASNDetailsToFile` (print.go:188-219): per ASN, its header burst followed
by one line per entry of the FQDN map. -/
def saveASNDetailsWrites (asns : List (List Char × ASNEntry))
    (fqdns : List (List Char × List Char)) : List (List Char) :=
  concatAll (asns.map fun kv => asnDetailLine kv.1 kv.2 fqdns :: fqdns.map (fqdnDetailLine fqdns))

/-- The fields of `requests.AddressInfo` read by `UpdateSummaryData`
(print.go:222-239): `a.Address.String()`, `CIDRStr`, `ASN`, `Description`. -/
structure AddressInfo where
  address : List Char
  cidrStr : List Char
  asn : Int
  description : List Char
deriving DecidableEq

/-- `ASNSummaryData` (print.go:57-60): organization name and per-CIDR
occurrence counts (`map[string]int`). -/
structure ASNSummaryData where
  name : List Char
  netblocks : List (List Char × Int)
deriving DecidableEq

/-- Go `m[k]++` on a `map[string]int`: a missing key counts from the zero
value 0, so it is created with count 1. -/
def incrKey : List (List Char × Int) → List Char → List (List Char × Int)
  | [], k => [(k, 1)]
  | (k', v) :: rest, k =>
    if k' = k then (k', v + 1) :: rest else (k', v) :: incrKey rest k

/-- Body of the `for _, addr := range output.Addresses` loop of
`UpdateSummaryData` (print.go:223-238): skip empty CIDRs, create the ASN's
summary on first sight (capturing `addr.Description`), then increment the
CIDR's counter. -/
def updateStep (asns : List (Int × ASNSummaryData)) (addr : AddressInfo) :
    List (Int × ASNSummaryData) :=
  if addr.cidrStr = [] then asns
  else
    match mapGet asns addr.asn with
    | none => mapSet asns addr.asn { name := addr.description, netblocks := incrKey [] addr.cidrStr }
    | some d => mapSet asns addr.asn { name := d.name, netblocks := incrKey d.netblocks addr.cidrStr }

/-- `UpdateSummaryData` (print.go:222-239) over the materialized address
batch. -/
def updateSummaryData (addrs : List AddressInfo)
    (asns : List (Int × ASNSummaryData)) : List (Int × ASNSummaryData) :=
  addrs.foldl updateStep asns

/-! Helper lemmas about the association-list map model. -/

theorem mapGet_mapSet_self {K V : Type} [DecidableEq K]
    (m : List (K × V)) (k : K) (v : V) : mapGet (mapSet m k v) k = some v := by
  induction m with
  | nil => simp [mapGet, mapSet]
  | cons kv rest ih =>
    by_cases h : kv.1 = k
    · simp [mapGet, mapSet, h]
    · simpa [mapGet, mapSet, h] using ih

theorem mapSet_mapSet_self {K V : Type} [DecidableEq K]
    (m : List (K × V)) (k : K) (v w : V) :
    mapSet (mapSet m k v) k w = mapSet m k w := by
  induction m with
  | nil => simp [mapSet]
  | cons kv rest ih =>
    by_cases h : kv.1 = k
    · simp [mapSet, h]
    · simpa [mapSet, h] using ih

theorem mem_concatAll {α : Type} {x : α} {xs : List α} {ll : List (List α)}
    (hx : x ∈ xs) (hxs : xs ∈ ll) : x ∈ concatAll ll := by
  induction ll with
  | nil => cases hxs
  | cons y ys ih =>
    rcases List.mem_cons.mp hxs with h | h
    · subst h; exact List.mem_append.mpr (Or.inl hx)
    · exact List.mem_append.mpr (Or.inr (ih h))

/-! Helper lemmas about the mask glyph. -/

theorem maskChar_idem (c : Char) : maskChar (maskChar c) = maskChar c := by
  by_cases h : isPassChar c
  · simp [maskChar, h]
  · simp only [maskChar, h, if_false]
    decide

theorem maskChar_eq_dot_iff (c : Char) : maskChar c = '.' ↔ c = '.' := by
  by_cases h : isPassChar c
  · simp [maskChar, h]
  · simp only [maskChar, h, if_false]
    constructor
    · intro hx; cases hx
    · intro hc; exact absurd (Or.inl hc) h

theorem maskChar_eq_slash_iff (c : Char) : maskChar c = '/' ↔ c = '/' := by
  by_cases h : isPassChar c
  · simp [maskChar, h]
  · simp only [maskChar, h, if_false]
    constructor
    · intro hx; cases hx
    · intro hc; exact absurd (Or.inr (Or.inl hc)) h

theorem utf8Size_maskChar (c : Char) : (maskChar c).utf8Size = 1 := by
  by_cases h : isPassChar c
  · rcases h with h | h | h | h <;> subst h <;> decide
  · simp only [maskChar, h, if_false]; decide

theorem map_maskChar_idem (l : List Char) :
    (l.map maskChar).map maskChar = l.map maskChar := by
  induction l with
  | nil => rfl
  | cons a rest ih => simp [List.map_cons, maskChar_idem, ih]

theorem not_mem_map_maskChar_dot {l : List Char} (h : '.' ∉ l) :
    '.' ∉ l.map maskChar := by
  intro hmem
  rcases List.mem_map.mp hmem with ⟨a, ha, hma⟩
  exact h ((maskChar_eq_dot_iff a).mp hma ▸ ha)

theorem not_mem_map_maskChar_slash {l : List Char} (h : '/' ∉ l) :
    '/' ∉ l.map maskChar := by
  intro hmem
  rcases List.mem_map.mp hmem with ⟨a, ha, hma⟩
  exact h ((maskChar_eq_slash_iff a).mp hma ▸ ha)

/-! Helper lemmas about UTF-8 byte lengths. -/

theorem bsum_nil : bsum [] = 0 := rfl

theorem bsum_cons (a : Char) (l : List Char) :
    bsum (a :: l) = a.utf8Size + bsum l := by
  simp [bsum]

theorem bsum_append (l₁ l₂ : List Char) :
    bsum (l₁ ++ l₂) = bsum l₁ + bsum l₂ := by
  simp [bsum]

theorem length_le_bsum (s : List Char) : s.length ≤ bsum s := by
  induction s with
  | nil => simp [bsum]
  | cons a rest ih =>
    have := Char.utf8Size_pos a
    simp only [List.length_cons, bsum_cons]
    omega

theorem bsum_map_maskChar (l : List Char) : bsum (l.map maskChar) = l.length := by
  induction l with
  | nil => rfl
  | cons a rest ih =>
    simp only [List.map_cons, bsum_cons, utf8Size_maskChar, ih, List.length_cons]
    omega

/-! Helper lemmas about byte-indexed occurrence search. -/

theorem goIndexOfChar_of_not_mem {s : List Char} {c : Char} (h : c ∉ s) :
    goIndexOfChar s c = -1 := by
  induction s with
  | nil => rfl
  | cons a rest ih =>
    have ha : ¬ a = c := fun hac => h (hac ▸ List.mem_cons_self a rest)
    have hr : goIndexOfChar rest c = -1 := ih (fun hm => h (List.mem_cons_of_mem a hm))
    simp [goIndexOfChar, ha, hr]

theorem goIndexOfChar_decomp {s : List Char} {c : Char}
    (h : 0 ≤ goIndexOfChar s c) :
    ∃ pre post, s = pre ++ c :: post ∧ c ∉ pre ∧
      goIndexOfChar s c = (bsum pre : Int) := by
  induction s with
  | nil => simp [goIndexOfChar] at h
  | cons a rest ih =>
    by_cases hac : a = c
    · exact ⟨[], rest, by simp [hac], by simp, by simp [goIndexOfChar, hac, bsum]⟩
    · by_cases hr : goIndexOfChar rest c < 0
      · simp [goIndexOfChar, hac, hr] at h
      · push_neg at hr
        rcases ih hr with ⟨pre, post, hs, hpre, hval⟩
        refine ⟨a :: pre, post, by simp [hs], ?_, ?_⟩
        · intro hm
          rcases List.mem_cons.mp hm with hm | hm
          · exact hac hm.symm
          · exact hpre hm
        · simp only [goIndexOfChar, hac, if_false, not_lt.mpr hr, if_neg (not_lt.mpr hr)]
          rw [hval, bsum_cons]
          push_cast
          ring

theorem goIndexOfChar_append {pre post : List Char} {c : Char} (h : c ∉ pre) :
    goIndexOfChar (pre ++ c :: post) c = (bsum pre : Int) := by
  induction pre with
  | nil => simp [goIndexOfChar, bsum]
  | cons a pre' ih =>
    have ha : ¬ a = c := fun hac => h (hac ▸ List.mem_cons_self a pre')
    have hr : goIndexOfChar (pre' ++ c :: post) c = (bsum pre' : Int) :=
      ih (fun hm => h (List.mem_cons_of_mem a hm))
    have hnn : ¬ goIndexOfChar (pre' ++ c :: post) c < 0 := by
      rw [hr]; omega
    have hstep : goIndexOfChar ((a :: pre') ++ c :: post) c =
        if a = c then 0
        else if goIndexOfChar (pre' ++ c :: post) c < 0 then -1
        else (a.utf8Size : Int) + goIndexOfChar (pre' ++ c :: post) c := rfl
    rw [hstep, if_neg ha, if_neg hnn, hr, bsum_cons]
    push_cast
    ring

theorem goLastIndexOfChar_of_not_mem {s : List Char} {c : Char} (h : c ∉ s) :
    goLastIndexOfChar s c = -1 := by
  induction s with
  | nil => rfl
  | cons a rest ih =>
    have ha : ¬ a = c := fun hac => h (hac ▸ List.mem_cons_self a rest)
    have hr : goLastIndexOfChar rest c = -1 := ih (fun hm => h (List.mem_cons_of_mem a hm))
    simp [goLastIndexOfChar, ha, hr]

theorem goLastIndexOfChar_nonneg_of_mem {s : List Char} {c : Char} (h : c ∈ s) :
    0 ≤ goLastIndexOfChar s c := by
  induction s with
  | nil => cases h
  | cons a rest ih =>
    by_cases hr : 0 ≤ goLastIndexOfChar rest c
    · simp only [goLastIndexOfChar, hr, if_pos hr]
      exact add_nonneg (Int.natCast_nonneg _) hr
    · rcases List.mem_cons.mp h with hm | hm
      · simp [goLastIndexOfChar, hr, hm.symm]
      · exact absurd (ih hm) hr

theorem goLastIndexOfChar_decomp {s : List Char} {c : Char}
    (h : 0 ≤ goLastIndexOfChar s c) :
    ∃ pre post, s = pre ++ c :: post ∧ c ∉ post ∧
      goLastIndexOfChar s c = (bsum pre : Int) := by
  induction s with
  | nil => simp [goLastIndexOfChar] at h
  | cons a rest ih =>
    by_cases hr : 0 ≤ goLastIndexOfChar rest c
    · rcases ih hr with ⟨pre, post, hs, hpost, hval⟩
      refine ⟨a :: pre, post, by simp [hs], hpost, ?_⟩
      simp only [goLastIndexOfChar, hr, if_pos hr]
      rw [hval, bsum_cons]
      push_cast
      ring
    · have hnm : c ∉ rest := fun hm => hr (goLastIndexOfChar_nonneg_of_mem hm)
      by_cases hac : a = c
      · exact ⟨[], rest, by simp [hac], hnm, by simp [goLastIndexOfChar, hr, hac, bsum]⟩
      · simp [goLastIndexOfChar, hr, hac] at h

theorem goLastIndexOfChar_append {pre post : List Char} {c : Char} (h : c ∉ post) :
    goLastIndexOfChar (pre ++ c :: post) c = (bsum pre : Int) := by
  induction pre with
  | nil =>
    have hr : goLastIndexOfChar post c = -1 := goLastIndexOfChar_of_not_mem h
    have hnr : ¬ 0 ≤ goLastIndexOfChar post c := by rw [hr]; omega
    simp [goLastIndexOfChar, hnr, bsum]
  | cons a pre' ih =>
    have hr : goLastIndexOfChar (pre' ++ c :: post) c = (bsum pre' : Int) := ih
    have hnn : 0 ≤ goLastIndexOfChar (pre' ++ c :: post) c := by rw [hr]; omega
    have hstep : goLastIndexOfChar ((a :: pre') ++ c :: post) c =
        if 0 ≤ goLastIndexOfChar (pre' ++ c :: post) c then
          (a.utf8Size : Int) + goLastIndexOfChar (pre' ++ c :: post) c
        else if a = c then 0 else -1 := rfl
    rw [hstep, if_pos hnn, hr, bsum_cons]
    push_cast
    ring

/-! Helper lemmas about the censor loop. -/

theorem getD_append_length (pre : List Char) (x : Char) (rest : List Char) (d : Char) :
    (pre ++ x :: rest).getD pre.length d = x := by
  induction pre with
  | nil => rfl
  | cons a pre' ih => simpa using ih

theorem set_append_length (pre : List Char) (x : Char) (rest : List Char) (y : Char) :
    (pre ++ x :: rest).set pre.length y = pre ++ y :: rest := by
  induction pre with
  | nil => rfl
  | cons a pre' ih => simp [List.set, ih]

theorem censorAux_zero (s : List Char) (i : Int) : censorAux 0 s i = some s := rfl

theorem censorAux_neg (n : Nat) (s : List Char) (i : Int) (h : i < 0) :
    censorAux (n + 1) s i = none := by
  have hc : ¬ (0 ≤ i ∧ i < (s.length : Int)) := by omega
  simp [censorAux, hc]

theorem censorAux_append :
    ∀ (mid pre post : List Char),
      censorAux mid.length (pre ++ mid ++ post) (pre.length : Int) =
        some (pre ++ mid.map maskChar ++ post) := by
  intro mid
  induction mid with
  | nil => intro pre post; simp [censorAux_zero]
  | cons m ms ih =>
    intro pre post
    have hcond : (0 : Int) ≤ (pre.length : Int) ∧
        (pre.length : Int) < ((pre ++ m :: ms ++ post).length : Int) := by
      constructor
      · exact Int.natCast_nonneg _
      · have : pre.length < (pre ++ m :: ms ++ post).length := by
          simp [List.length_append]
        exact_mod_cast this
    have hstep : censorAux (m :: ms).length (pre ++ m :: ms ++ post) (pre.length : Int) =
        censorAux ms.length
          ((pre ++ m :: ms ++ post).set ((pre.length : Int)).toNat
            (maskChar ((pre ++ m :: ms ++ post).getD ((pre.length : Int)).toNat 'x')))
          ((pre.length : Int) + 1) := by
      simp only [List.length_cons, censorAux, hcond, and_self, if_true]
    rw [hstep]
    have htn : ((pre.length : Int)).toNat = pre.length := Int.toNat_natCast _
    have hassoc : pre ++ m :: ms ++ post = pre ++ m :: (ms ++ post) := by simp
    rw [htn, hassoc, getD_append_length, set_append_length]
    have hre : pre ++ maskChar m :: (ms ++ post) = (pre ++ [maskChar m]) ++ ms ++ post := by
      simp
    have hlen : ((pre.length : Int) + 1) = (((pre ++ [maskChar m]).length : Nat) : Int) := by
      simp
    rw [hre, hlen, ih (pre ++ [maskChar m]) post]
    simp

theorem censorAux_some_bounds :
    ∀ (n : Nat) (s : List Char) (i : Int) (t : List Char),
      censorAux n s i = some t → n = 0 ∨ (0 ≤ i ∧ i.toNat + n ≤ s.length) := by
  intro n
  induction n with
  | zero => intro s i t _; exact Or.inl rfl
  | succ m ih =>
    intro s i t h
    by_cases hc : 0 ≤ i ∧ i < (s.length : Int)
    · simp only [censorAux, hc, and_self, if_pos hc] at h
      rcases ih _ _ _ h with h0 | ⟨hi1, hi2⟩
      · subst h0
        refine Or.inr ⟨hc.1, ?_⟩
        have := hc.2
        omega
      · rw [List.length_set] at hi2
        refine Or.inr ⟨hc.1, ?_⟩
        have hip : (0 : Int) ≤ i := hc.1
        omega
    · simp [censorAux, hc] at h

theorem maskSplit_cons (c : Char) (hc : maskChar c = c) (l : List Char) (m : Nat) :
    ((c :: l).take m).map maskChar ++ (c :: l).drop m =
      c :: ((l.take (m - 1)).map maskChar ++ l.drop (m - 1)) := by
  cases m with
  | zero => simp
  | succ k => simp [hc]

/-! Idempotence of the three censor transforms on successful runs. -/

theorem censorNetBlock_some_idem {s t : List Char} (h : censorNetBlock s = some t) :
    censorNetBlock t = some t := by
  unfold censorNetBlock censorString at h ⊢
  rcases le_or_lt (goIndexOfChar s '/') 0 with hg | hg
  · have hfuel : (goIndexOfChar s '/' - 0).toNat = 0 := by omega
    rw [hfuel, censorAux_zero] at h
    have ht : t = s := by injection h with h'; exact h'.symm
    subst ht
    rw [hfuel, censorAux_zero]
  · obtain ⟨pre, post, hs, hpre, hval⟩ := goIndexOfChar_decomp (le_of_lt hg)
    rw [hval] at hg
    have hfuel : (goIndexOfChar s '/' - 0).toNat = bsum pre := by rw [hval]; omega
    rw [hfuel] at h
    have hle : bsum pre ≤ s.length := by
      rcases censorAux_some_bounds _ _ _ _ h with h0 | ⟨_, hb⟩
      · omega
      · simpa using hb
    have hmidlen : (s.take (bsum pre)).length = bsum pre := by
      simp [hle]
    have happ := censorAux_append (s.take (bsum pre)) [] (s.drop (bsum pre))
    rw [hmidlen] at happ
    simp only [List.nil_append, List.length_nil, Nat.cast_zero, List.take_append_drop] at happ
    rw [happ] at h
    have ht : t = (s.take (bsum pre)).map maskChar ++ s.drop (bsum pre) := by
      injection h with h'; exact h'.symm
    have hp : pre.length ≤ bsum pre := length_le_bsum pre
    have htake : s.take (bsum pre) = pre ++ ('/' :: post).take (bsum pre - pre.length) := by
      rw [hs, List.take_append_eq_append_take, List.take_of_length_le hp]
    have hdrop : s.drop (bsum pre) = ('/' :: post).drop (bsum pre - pre.length) := by
      rw [hs, List.drop_append_eq_append_drop, List.drop_eq_nil_of_le hp, List.nil_append]
    have ht2 : t = pre.map maskChar ++ '/' ::
        ((post.take (bsum pre - pre.length - 1)).map maskChar ++
          post.drop (bsum pre - pre.length - 1)) := by
      rw [ht, htake, hdrop, List.map_append, List.append_assoc,
        maskSplit_cons '/' (by decide) post (bsum pre - pre.length)]
    have hidx : goIndexOfChar t '/' = ((pre.map maskChar).length : Int) := by
      rw [ht2, goIndexOfChar_append (not_mem_map_maskChar_slash hpre), bsum_map_maskChar]
      simp
    rw [hidx]
    have hfuel2 : (((pre.map maskChar).length : Int) - 0).toNat = (pre.map maskChar).length := by
      omega
    rw [hfuel2]
    have happ2 := censorAux_append (pre.map maskChar) []
        ('/' :: ((post.take (bsum pre - pre.length - 1)).map maskChar ++
          post.drop (bsum pre - pre.length - 1)))
    simp only [List.nil_append, List.length_nil, Nat.cast_zero] at happ2
    rw [← ht2, map_maskChar_idem] at happ2
    rw [happ2, ← ht2]

theorem censorIP_some_idem {s t : List Char} (h : censorIP s = some t) :
    censorIP t = some t := by
  unfold censorIP censorString at h ⊢
  rcases le_or_lt (goLastIndexOfChar s '.') 0 with hg | hg
  · have hfuel : (goLastIndexOfChar s '.' - 0).toNat = 0 := by omega
    rw [hfuel, censorAux_zero] at h
    have ht : t = s := by injection h with h'; exact h'.symm
    subst ht
    rw [hfuel, censorAux_zero]
  · obtain ⟨pre, post, hs, hpost, hval⟩ := goLastIndexOfChar_decomp (le_of_lt hg)
    rw [hval] at hg
    have hfuel : (goLastIndexOfChar s '.' - 0).toNat = bsum pre := by rw [hval]; omega
    rw [hfuel] at h
    have hle : bsum pre ≤ s.length := by
      rcases censorAux_some_bounds _ _ _ _ h with h0 | ⟨_, hb⟩
      · omega
      · simpa using hb
    have hmidlen : (s.take (bsum pre)).length = bsum pre := by
      simp [hle]
    have happ := censorAux_append (s.take (bsum pre)) [] (s.drop (bsum pre))
    rw [hmidlen] at happ
    simp only [List.nil_append, List.length_nil, Nat.cast_zero, List.take_append_drop] at happ
    rw [happ] at h
    have ht : t = (s.take (bsum pre)).map maskChar ++ s.drop (bsum pre) := by
      injection h with h'; exact h'.symm
    have hp : pre.length ≤ bsum pre := length_le_bsum pre
    have htake : s.take (bsum pre) = pre ++ ('.' :: post).take (bsum pre - pre.length) := by
      rw [hs, List.take_append_eq_append_take, List.take_of_length_le hp]
    have hdrop : s.drop (bsum pre) = ('.' :: post).drop (bsum pre - pre.length) := by
      rw [hs, List.drop_append_eq_append_drop, List.drop_eq_nil_of_le hp, List.nil_append]
    have ht2 : t = pre.map maskChar ++ '.' ::
        ((post.take (bsum pre - pre.length - 1)).map maskChar ++
          post.drop (bsum pre - pre.length - 1)) := by
      rw [ht, htake, hdrop, List.map_append, List.append_assoc,
        maskSplit_cons '.' (by decide) post (bsum pre - pre.length)]
    have hR : '.' ∉ (post.take (bsum pre - pre.length - 1)).map maskChar ++
        post.drop (bsum pre - pre.length - 1) := by
      intro hm
      rcases List.mem_append.mp hm with hm | hm
      · exact not_mem_map_maskChar_dot
          (fun hx => hpost (List.take_subset _ _ hx)) hm
      · exact hpost (List.drop_subset _ _ hm)
    have hidx : goLastIndexOfChar t '.' = ((pre.map maskChar).length : Int) := by
      rw [ht2, goLastIndexOfChar_append hR, bsum_map_maskChar]
      simp
    rw [hidx]
    have hfuel2 : (((pre.map maskChar).length : Int) - 0).toNat = (pre.map maskChar).length := by
      omega
    rw [hfuel2]
    have happ2 := censorAux_append (pre.map maskChar) []
        ('.' :: ((post.take (bsum pre - pre.length - 1)).map maskChar ++
          post.drop (bsum pre - pre.length - 1)))
    simp only [List.nil_append, List.length_nil, Nat.cast_zero] at happ2
    rw [← ht2, map_maskChar_idem] at happ2
    rw [happ2, ← ht2]

theorem censorDomain_some_idem {s t : List Char} (h : censorDomain s = some t) :
    censorDomain t = some t := by
  unfold censorDomain censorString at h ⊢
  rcases lt_or_le (goIndexOfChar s '.') 0 with hg | hg
  · obtain ⟨k, hk⟩ : ∃ k, ((bsum s : Int) - goIndexOfChar s '.').toNat = k + 1 := by
      refine ⟨((bsum s : Int) - goIndexOfChar s '.').toNat - 1, ?_⟩
      omega
    rw [hk, censorAux_neg _ _ _ hg] at h
    cases h
  · obtain ⟨pre, post, hs, hpre, hval⟩ := goIndexOfChar_decomp hg
    have hdot : ('.').utf8Size = 1 := by decide
    have hbs : bsum s = bsum pre + (1 + bsum post) := by
      rw [hs, bsum_append, bsum_cons, hdot]
    have hfuel : ((bsum s : Int) - goIndexOfChar s '.').toNat = 1 + bsum post := by
      rw [hval, hbs]
      push_cast
      omega
    rw [hfuel, hval] at h
    have hlen : s.length = pre.length + 1 + post.length := by
      simp only [hs, List.length_append, List.length_cons]
      omega
    have hble : bsum pre + (1 + bsum post) ≤ s.length := by
      rcases censorAux_some_bounds _ _ _ _ h with h0 | ⟨_, hb⟩
      · omega
      · have : (↑(bsum pre) : Int).toNat = bsum pre := by omega
        rw [this] at hb
        omega
    have hlpre := length_le_bsum pre
    have hlpost := length_le_bsum post
    have hpre_eq : bsum pre = pre.length := by omega
    have hpost_eq : bsum post = post.length := by omega
    rw [hpre_eq, hpost_eq, Nat.add_comm 1 post.length] at h
    have happ := censorAux_append ('.' :: post) pre []
    simp only [List.append_nil, List.length_cons] at happ
    rw [← hs] at happ
    rw [happ] at h
    have hmd : maskChar '.' = '.' := by decide
    have ht2 : t = pre ++ '.' :: post.map maskChar := by
      have ht : t = pre ++ ('.' :: post).map maskChar := by
        injection h with h'; exact h'.symm
      rw [ht, List.map_cons, hmd]
    have hidx2 : goIndexOfChar t '.' = (bsum pre : Int) := by
      rw [ht2]; exact goIndexOfChar_append hpre
    have hbt : bsum t = pre.length + 1 + post.length := by
      rw [ht2, bsum_append, bsum_cons, hdot, bsum_map_maskChar, hpre_eq]
      omega
    rw [hidx2, hpre_eq]
    have hfuel2 : ((bsum t : Int) - (pre.length : Int)).toNat = post.length + 1 := by
      rw [hbt]
      push_cast
      omega
    rw [hfuel2]
    have happ2 := censorAux_append ('.' :: post.map maskChar) pre []
    simp only [List.append_nil, List.length_cons, List.length_map] at happ2
    rw [← ht2] at happ2
    rw [happ2, ht2]
    simp only [List.map_cons, hmd, map_maskChar_idem]

/-! Branch characterizations of the record-parsing loop body. -/

theorem processRecord_netblock (st : SummaryState) (line v : List Char)
    (h3 : 3 ≤ (goSplit line sepArrow).length)
    (hv : trimSpace ((goSplit line sepArrow).getD 2 []) = v)
    (hnb : hasSuffix v netblockTag = true) :
    processRecord st line =
      some { st with asns := st.asns.map fun kv =>
               (kv.1, { kv.2 with netblocks := kv.2.netblocks ++ [trimSuffix v netblockTag] }) } := by
  have hlt : ¬ (goSplit line sepArrow).length < 3 := by omega
  unfold processRecord
  simp only [hlt, if_false, hv, hnb, if_true]

theorem processRecord_fqdn_ip (st : SummaryState) (line lf v : List Char)
    (h3 : 3 ≤ (goSplit line sepArrow).length)
    (hlf : trimSpace ((goSplit line sepArrow).getD 0 []) = lf)
    (hv : trimSpace ((goSplit line sepArrow).getD 2 []) = v)
    (hnbF : hasSuffix v netblockTag = false)
    (hasnF : hasSuffix lf asnTag = false)
    (hfq : hasSuffix lf fqdnTag = true)
    (hip : hasSuffix v ipTag = true) :
    processRecord st line =
      some { st with
              fqdns := mapSet st.fqdns lf v
              asns := st.asns.map fun kv =>
                (kv.1, { kv.2 with fqdns := kv.2.fqdns ++ [lf] }) } := by
  have hlt : ¬ (goSplit line sepArrow).length < 3 := by omega
  unfold processRecord
  simp only [hlt, if_false, hlf, hv, hnbF, hasnF, hfq, hip, Bool.false_eq_true, if_true,
    Bool.and_self, Bool.true_and]

theorem processRecord_fqdn_alias (st : SummaryState) (line lf v : List Char)
    (h3 : 3 ≤ (goSplit line sepArrow).length)
    (hlf : trimSpace ((goSplit line sepArrow).getD 0 []) = lf)
    (hv : trimSpace ((goSplit line sepArrow).getD 2 []) = v)
    (hnbF : hasSuffix v netblockTag = false)
    (hasnF : hasSuffix lf asnTag = false)
    (hfq : hasSuffix lf fqdnTag = true)
    (hip : hasSuffix v ipTag = false) :
    processRecord st line = some { st with fqdns := mapSet st.fqdns lf v } := by
  have hlt : ¬ (goSplit line sepArrow).length < 3 := by omega
  unfold processRecord
  simp only [hlt, if_false, hlf, hv, hnbF, hasnF, hfq, hip, Bool.false_eq_true, if_true,
    Bool.and_false, Bool.true_and]

/-! Claim theorems. -/

/-- C1 counterexample: feeding the line
`"15133 (ASN) --> is --> Akamai Technologies (RIROrganization)"` and then the
bare line `"93.184.0.0/16 (Netblock)"` does *not* give netblock set
`{"93.184.0.0/16"}`: the second line contains no `" --> "` separator, splits
into a single segment, and is skipped, leaving the entry's netblock list
empty. -/
theorem c1_counterexample :
    runRecords ⟨[], []⟩
        [("15133 (ASN) --> is --> Akamai Technologies (RIROrganization)").data,
         ("93.184.0.0/16 (Netblock)").data]
      = some ⟨[(("15133").data, ⟨("Akamai Technologies").data, [], []⟩)], []⟩
    ∧ (runRecords ⟨[], []⟩
        [("15133 (ASN) --> is --> Akamai Technologies (RIROrganization)").data,
         ("93.184.0.0/16 (Netblock)").data]).map
          (fun s => (mapGet s.asns (("15133").data)).map ASNEntry.netblocks)
      ≠ some (some [("93.184.0.0/16").data]) := by
  exact ⟨by decide, by decide⟩

/-- C1 (amended): feeding the two quoted lines produces the ASNSummary entry
keyed `"15133"` with organization `"Akamai Technologies"` and *empty* netblock
set, the bare netblock line being skipped as malformed; a three-segment
netblock line in its place (e.g.
`"15133 (ASN) --> announces --> 93.184.0.0/16 (Netblock)"`) yields netblock
set exactly `{"93.184.0.0/16"}`. -/
theorem c1_theorem :
    runRecords ⟨[], []⟩
        [("15133 (ASN) --> is --> Akamai Technologies (RIROrganization)").data,
         ("93.184.0.0/16 (Netblock)").data]
      = some ⟨[(("15133").data, ⟨("Akamai Technologies").data, [], []⟩)], []⟩
    ∧ runRecords ⟨[], []⟩
        [("15133 (ASN) --> is --> Akamai Technologies (RIROrganization)").data,
         ("15133 (ASN) --> announces --> 93.184.0.0/16 (Netblock)").data]
      = some ⟨[(("15133").data,
          ⟨("Akamai Technologies").data, [("93.184.0.0/16").data], []⟩)], []⟩ := by
  exact ⟨by decide, by decide⟩

/-- C2 counterexample: `"abc"` contains no `'.'`, yet `censorDomain` does not
return — it indexes the rune array at `-1` (the window start is
`strings.Index`'s failure value) and faults, modelled as `none`. -/
theorem c2_counterexample :
    '.' ∉ ("abc").data ∧ censorDomain ("abc").data = none := by
  exact ⟨by decide, by decide⟩

/-- C2 (amended): `censorIP` and `censorNetBlock` are total when the defining
separator is absent — the mask window degrades to the empty window and the
input is returned unchanged — but `censorDomain` faults (out-of-bounds read at
index `-1`) on every input lacking a `'.'`, instead of degrading. -/
theorem c2_theorem :
    (∀ s : List Char, '.' ∉ s → censorIP s = some s)
    ∧ (∀ s : List Char, '/' ∉ s → censorNetBlock s = some s)
    ∧ (∀ s : List Char, '.' ∉ s → censorDomain s = none) := by
  refine ⟨?_, ?_, ?_⟩
  · intro s h
    unfold censorIP censorString
    rw [goLastIndexOfChar_of_not_mem h]
    have hz : ((-1 : Int) - 0).toNat = 0 := by omega
    rw [hz, censorAux_zero]
  · intro s h
    unfold censorNetBlock censorString
    rw [goIndexOfChar_of_not_mem h]
    have hz : ((-1 : Int) - 0).toNat = 0 := by omega
    rw [hz, censorAux_zero]
  · intro s h
    unfold censorDomain censorString
    rw [goIndexOfChar_of_not_mem h]
    obtain ⟨k, hk⟩ : ∃ k, ((bsum s : Int) - (-1)).toNat = k + 1 := by
      refine ⟨((bsum s : Int) - (-1)).toNat - 1, ?_⟩
      omega
    rw [hk]
    exact censorAux_neg _ _ _ (by omega)

/-- C2 witness: the amended statement evaluated at the dot-free and slash-free
input `"abc"`. -/
theorem c2_witness :
    censorIP ("abc").data = some ("abc").data
    ∧ censorNetBlock ("abc").data = some ("abc").data
    ∧ censorDomain ("abc").data = none :=
  ⟨c2_theorem.1 _ (by decide), c2_theorem.2.1 _ (by decide), c2_theorem.2.2 _ (by decide)⟩

/-- C3: the parser is *not* total on ASN-tagged left segments: for the line
`"(ASN) --> is --> Akamai Technologies (RIROrganization)"` the left segment
`"(ASN)"` passes the `HasSuffix(left, "(ASN)")` check but the slice
`left[:len(left)-len(" (ASN)")]` (print.go:85) has bound `-1`, so the fold
panics (modelled `none`) instead of folding the line in safely. -/
theorem c3_theorem :
    processRecord ⟨[], []⟩
        ("(ASN) --> is --> Akamai Technologies (RIROrganization)").data = none := by
  decide

/-- C4: each censor transform is idempotent: composing a censor with itself
(propagating a fault, when one occurs, exactly as the composed Go calls would)
equals a single application; in particular re-masking any successfully masked
output is a no-op. -/
theorem c4_theorem (s : List Char) :
    (censorDomain s).bind censorDomain = censorDomain s
    ∧ (censorIP s).bind censorIP = censorIP s
    ∧ (censorNetBlock s).bind censorNetBlock = censorNetBlock s := by
  refine ⟨?_, ?_, ?_⟩
  · cases h : censorDomain s with
    | none => rfl
    | some t => exact censorDomain_some_idem h
  · cases h : censorIP s with
    | none => rfl
    | some t => exact censorIP_some_idem h
  · cases h : censorNetBlock s with
    | none => rfl
    | some t => exact censorNetBlock_some_idem h

/-- C4 witness: idempotence evaluated at concrete masked inputs. -/
theorem c4_witness :
    (censorDomain ("sub.example.com").data).bind censorDomain
        = censorDomain ("sub.example.com").data
    ∧ (censorIP ("93.184.216.34").data).bind censorIP
        = censorIP ("93.184.216.34").data
    ∧ (censorNetBlock ("93.184.216.0/24").data).bind censorNetBlock
        = censorNetBlock ("93.184.216.0/24").data :=
  ⟨(c4_theorem _).1, (c4_theorem _).2.1, (c4_theorem _).2.2⟩

/-- C5: for every parser state and every line splitting into at least three
segments whose trimmed final segment ends with `" (Netblock)"`, processing the
line appends the extracted netblock to the netblock list of *every* ASN
currently in the index, creates no new ASN entry (the key list is unchanged),
and leaves the FQDN map untouched. -/
theorem c5_theorem (st : SummaryState) (line v nb : List Char)
    (h3 : 3 ≤ (goSplit line sepArrow).length)
    (hv : trimSpace ((goSplit line sepArrow).getD 2 []) = v)
    (hnb : hasSuffix v netblockTag = true)
    (hnbv : trimSuffix v netblockTag = nb) :
    processRecord st line =
      some { st with asns := st.asns.map fun kv =>
               (kv.1, { kv.2 with netblocks := kv.2.netblocks ++ [nb] }) }
    ∧ (st.asns.map fun kv =>
         (kv.1, { kv.2 with netblocks := kv.2.netblocks ++ [nb] })).map Prod.fst
        = st.asns.map Prod.fst := by
  constructor
  · rw [← hnbv]
    exact processRecord_netblock st line v h3 hv hnb
  · rw [List.map_map]
    rfl

/-- C5 witness: the fan-out evaluated against a two-ASN population. -/
theorem c5_witness :
    processRecord
        ⟨[(("15133").data, ⟨("Org One").data, [("10.0.0.0/8").data], []⟩),
          (("64512").data, ⟨("Org Two").data, [], [("a.com (FQDN)").data]⟩)],
         [(("a.com (FQDN)").data, ("1.2.3.4 (IPAddress)").data)]⟩
        ("a --> b --> 93.184.0.0/16 (Netblock)").data
      = some ⟨([(("15133").data, ⟨("Org One").data, [("10.0.0.0/8").data], []⟩),
              (("64512").data, ⟨("Org Two").data, [], [("a.com (FQDN)").data]⟩)] :
                List (List Char × ASNEntry)).map
              (fun kv =>
                (kv.1, { kv.2 with netblocks := kv.2.netblocks ++ [("93.184.0.0/16").data] })),
            [(("a.com (FQDN)").data, ("1.2.3.4 (IPAddress)").data)]⟩
    ∧ (([(("15133").data, ⟨("Org One").data, [("10.0.0.0/8").data], []⟩),
         (("64512").data, ⟨("Org Two").data, [], [("a.com (FQDN)").data]⟩)] :
           List (List Char × ASNEntry)).map fun kv =>
          (kv.1, { kv.2 with netblocks := kv.2.netblocks ++ [("93.184.0.0/16").data] })).map
            Prod.fst
        = ([(("15133").data, ⟨("Org One").data, [("10.0.0.0/8").data], []⟩),
            (("64512").data, ⟨("Org Two").data, [], [("a.com (FQDN)").data]⟩)] :
              List (List Char × ASNEntry)).map Prod.fst :=
  c5_theorem _ _ (("93.184.0.0/16 (Netblock)").data) _
    (by decide) (by decide) (by decide) (by decide)

/-- C6: in the persisted report every ASN block's header burst is written with
the same subdomain count, namely the total size of the whole FQDN map
(`len(fqdns)` at print.go:199); the written line is independent of the entry's
own FQDN list. -/
theorem c6_theorem (asns : List (List Char × ASNEntry))
    (fqdns : List (List Char × List Char)) (kv : List Char × ASNEntry)
    (hmem : kv ∈ asns) :
    asnDetailLine kv.1 kv.2 fqdns ∈ saveASNDetailsWrites asns fqdns
    ∧ asnDetailLine kv.1 kv.2 fqdns =
        ("ASN: ").data ++ kv.1 ++ (" - ").data ++ kv.2.organization ++
          ("\n\tNetblocks: ").data ++ commaJoin kv.2.netblocks ++
          ("\n\tSubdomains: ").data ++ (Nat.repr fqdns.length).data ++ ("\n").data
    ∧ ∀ l : List (List Char),
        asnDetailLine kv.1 { kv.2 with fqdns := l } fqdns
          = asnDetailLine kv.1 kv.2 fqdns := by
  refine ⟨?_, rfl, fun l => rfl⟩
  exact mem_concatAll (List.mem_cons_self _ _) (List.mem_map.mpr ⟨kv, hmem, rfl⟩)

/-- C6 witness: two ASN entries with per-entry FQDN lists of sizes 0 and 2 are
both written with the global count of the 1-entry FQDN map. -/
theorem c6_witness :
    asnDetailLine (("15133").data)
        (⟨("Org One").data, [("10.0.0.0/8").data], []⟩ : ASNEntry)
        [(("a.com (FQDN)").data, ("1.2.3.4 (IPAddress)").data)]
      ∈ saveASNDetailsWrites
        [(("15133").data, ⟨("Org One").data, [("10.0.0.0/8").data], []⟩),
         (("64512").data,
          ⟨("Org Two").data, [], [("a.com (FQDN)").data, ("b.com (FQDN)").data]⟩)]
        [(("a.com (FQDN)").data, ("1.2.3.4 (IPAddress)").data)]
    ∧ asnDetailLine (("15133").data)
        (⟨("Org One").data, [("10.0.0.0/8").data], []⟩ : ASNEntry)
        [(("a.com (FQDN)").data, ("1.2.3.4 (IPAddress)").data)]
      = ("ASN: ").data ++ ("15133").data ++ (" - ").data ++ ("Org One").data ++
          ("\n\tNetblocks: ").data ++ commaJoin [("10.0.0.0/8").data] ++
          ("\n\tSubdomains: ").data ++
          (Nat.repr ([(("a.com (FQDN)").data, ("1.2.3.4 (IPAddress)").data)].length)).data ++
          ("\n").data
    ∧ ∀ l : List (List Char),
        asnDetailLine (("15133").data)
          { (⟨("Org One").data, [("10.0.0.0/8").data], []⟩ : ASNEntry) with fqdns := l }
          [(("a.com (FQDN)").data, ("1.2.3.4 (IPAddress)").data)]
        = asnDetailLine (("15133").data)
            (⟨("Org One").data, [("10.0.0.0/8").data], []⟩ : ASNEntry)
            [(("a.com (FQDN)").data, ("1.2.3.4 (IPAddress)").data)] :=
  c6_theorem
    [(("15133").data, ⟨("Org One").data, [("10.0.0.0/8").data], []⟩),
     (("64512").data,
      ⟨("Org Two").data, [], [("a.com (FQDN)").data, ("b.com (FQDN)").data]⟩)]
    [(("a.com (FQDN)").data, ("1.2.3.4 (IPAddress)").data)]
    ((("15133").data), ⟨("Org One").data, [("10.0.0.0/8").data], []⟩)
    (List.mem_cons_self _ _)

/-- C7 counterexample: against a one-ASN population, processing the same
netblock relation twice appends the netblock twice — the resulting list has a
duplicate and differs from processing the relation once, so the field does not
behave as a duplicate-free set. -/
theorem c7_counterexample :
    runRecords ⟨[(("15133").data, ⟨("Org").data, [], []⟩)], []⟩
        [("a --> b --> 10.0.0.0/8 (Netblock)").data,
         ("a --> b --> 10.0.0.0/8 (Netblock)").data]
      = some ⟨[(("15133").data,
          ⟨("Org").data, [("10.0.0.0/8").data, ("10.0.0.0/8").data], []⟩)], []⟩
    ∧ ¬ ([("10.0.0.0/8").data, ("10.0.0.0/8").data] : List (List Char)).Nodup
    ∧ runRecords ⟨[(("15133").data, ⟨("Org").data, [], []⟩)], []⟩
        [("a --> b --> 10.0.0.0/8 (Netblock)").data]
      ≠ runRecords ⟨[(("15133").data, ⟨("Org").data, [], []⟩)], []⟩
        [("a --> b --> 10.0.0.0/8 (Netblock)").data,
         ("a --> b --> 10.0.0.0/8 (Netblock)").data] := by
  exact ⟨by decide, by decide, by decide⟩

/-- C7 (amended): the netblock and FQDN fields are append-lists, not sets:
against an unchanged ASN population, processing the same netblock relation
(respectively the same FQDN-to-IP relation) twice appends the extracted
element to every ASN's list twice, so the result carries a duplicate instead
of equalling the once-processed state; the FQDN resolution map itself, being a
genuine map, is unchanged by the second pass. -/
theorem c7_theorem :
    (∀ (st : SummaryState) (line v nb : List Char),
      3 ≤ (goSplit line sepArrow).length →
      trimSpace ((goSplit line sepArrow).getD 2 []) = v →
      hasSuffix v netblockTag = true →
      trimSuffix v netblockTag = nb →
      runRecords st [line] =
        some { st with asns := st.asns.map fun kv =>
                 (kv.1, { kv.2 with netblocks := kv.2.netblocks ++ [nb] }) }
      ∧ runRecords st [line, line] =
        some { st with asns := st.asns.map fun kv =>
                 (kv.1, { kv.2 with netblocks := kv.2.netblocks ++ [nb, nb] }) })
    ∧ (∀ (st : SummaryState) (line lf v : List Char),
      3 ≤ (goSplit line sepArrow).length →
      trimSpace ((goSplit line sepArrow).getD 0 []) = lf →
      trimSpace ((goSplit line sepArrow).getD 2 []) = v →
      hasSuffix v netblockTag = false →
      hasSuffix lf asnTag = false →
      hasSuffix lf fqdnTag = true →
      hasSuffix v ipTag = true →
      runRecords st [line] =
        some { st with
                fqdns := mapSet st.fqdns lf v
                asns := st.asns.map fun kv =>
                  (kv.1, { kv.2 with fqdns := kv.2.fqdns ++ [lf] }) }
      ∧ runRecords st [line, line] =
        some { st with
                fqdns := mapSet st.fqdns lf v
                asns := st.asns.map fun kv =>
                  (kv.1, { kv.2 with fqdns := kv.2.fqdns ++ [lf, lf] }) }) := by
  constructor
  · intro st line v nb h3 hv hnb hnbv
    have hp1 := processRecord_netblock st line v h3 hv hnb
    rw [hnbv] at hp1
    have hp2 := processRecord_netblock
      { st with asns := st.asns.map fun kv =>
          (kv.1, { kv.2 with netblocks := kv.2.netblocks ++ [nb] }) } line v h3 hv hnb
    rw [hnbv] at hp2
    refine ⟨by simp [runRecords, hp1], ?_⟩
    simp only [runRecords, hp1, hp2, List.map_map]
    congr 2
    apply List.map_congr_left
    intro kv _
    simp [Function.comp]
  · intro st line lf v h3 hlf hv hnbF hasnF hfq hip
    have hp1 := processRecord_fqdn_ip st line lf v h3 hlf hv hnbF hasnF hfq hip
    have hp2 := processRecord_fqdn_ip
      { st with
          fqdns := mapSet st.fqdns lf v
          asns := st.asns.map fun kv =>
            (kv.1, { kv.2 with fqdns := kv.2.fqdns ++ [lf] }) }
      line lf v h3 hlf hv hnbF hasnF hfq hip
    refine ⟨by simp [runRecords, hp1], ?_⟩
    simp only [runRecords, hp1, hp2, List.map_map]
    congr 2
    · apply List.map_congr_left
      intro kv _
      simp [Function.comp]
    · exact mapSet_mapSet_self _ _ _ _

/-- C7 witness: the amended statement evaluated against a one-ASN population,
for a netblock relation and for an FQDN-to-IP relation. -/
theorem c7_witness :
    (runRecords ⟨[(("15133").data, ⟨("Org").data, [], []⟩)], []⟩
        [("a --> b --> 10.0.0.0/8 (Netblock)").data]
      = some ⟨[(("15133").data, ⟨("Org").data, [("10.0.0.0/8").data], []⟩)], []⟩
     ∧ runRecords ⟨[(("15133").data, ⟨("Org").data, [], []⟩)], []⟩
        [("a --> b --> 10.0.0.0/8 (Netblock)").data,
         ("a --> b --> 10.0.0.0/8 (Netblock)").data]
      = some ⟨[(("15133").data,
          ⟨("Org").data, [("10.0.0.0/8").data, ("10.0.0.0/8").data], []⟩)], []⟩)
    ∧ (runRecords ⟨[(("15133").data, ⟨("Org").data, [], []⟩)], []⟩
        [("a.com (FQDN) --> node --> 1.2.3.4 (IPAddress)").data]
      = some ⟨[(("15133").data, ⟨("Org").data, [], [("a.com (FQDN)").data]⟩)],
          [(("a.com (FQDN)").data, ("1.2.3.4 (IPAddress)").data)]⟩
     ∧ runRecords ⟨[(("15133").data, ⟨("Org").data, [], []⟩)], []⟩
        [("a.com (FQDN) --> node --> 1.2.3.4 (IPAddress)").data,
         ("a.com (FQDN) --> node --> 1.2.3.4 (IPAddress)").data]
      = some ⟨[(("15133").data,
          ⟨("Org").data, [], [("a.com (FQDN)").data, ("a.com (FQDN)").data]⟩)],
          [(("a.com (FQDN)").data, ("1.2.3.4 (IPAddress)").data)]⟩) := by
  have h1 := c7_theorem.1 ⟨[(("15133").data, ⟨("Org").data, [], []⟩)], []⟩
    (("a --> b --> 10.0.0.0/8 (Netblock)").data)
    (("10.0.0.0/8 (Netblock)").data) (("10.0.0.0/8").data)
    (by decide) (by decide) (by decide) (by decide)
  have h2 := c7_theorem.2 ⟨[(("15133").data, ⟨("Org").data, [], []⟩)], []⟩
    (("a.com (FQDN) --> node --> 1.2.3.4 (IPAddress)").data)
    (("a.com (FQDN)").data) (("1.2.3.4 (IPAddress)").data)
    (by decide) (by decide) (by decide) (by decide) (by decide) (by decide) (by decide)
  exact ⟨⟨h1.1.trans (by decide), h1.2.trans (by decide)⟩,
         ⟨h2.1.trans (by decide), h2.2.trans (by decide)⟩⟩

/-- Structured-path fold evaluated on three same-CIDR, same-ASN records from
the empty summary map: the CIDR's counter reaches 3. -/
theorem updateSummaryData_three_same (c : List Char) (hc : ¬ c = []) (n : Int)
    (a1 a2 a3 : AddressInfo) (h1 : a1.cidrStr = c) (h2 : a2.cidrStr = c)
    (h3 : a3.cidrStr = c) (n1 : a1.asn = n) (n2 : a2.asn = n) (n3 : a3.asn = n) :
    (mapGet (updateSummaryData [a1, a2, a3] []) n).map
        (fun d => mapGet d.netblocks c) = some (some 3) := by
  obtain ⟨ad1, c1, x1, d1⟩ := a1
  obtain ⟨ad2, c2, x2, d2⟩ := a2
  obtain ⟨ad3, c3, x3, d3⟩ := a3
  simp only at h1 h2 h3 n1 n2 n3
  subst h1 h2 h3 n1 n2 n3
  simp [updateSummaryData, updateStep, mapGet, mapSet, incrKey, hc]

/-- C8: in the structured aggregation path, a record with empty CIDR is
skipped (the summary map is returned unchanged), and three records carrying
CIDR `"10.0.0.0/24"` and ASN 64512 fed from the empty map yield a summary for
ASN 64512 whose counter for `"10.0.0.0/24"` is exactly 3. -/
theorem c8_theorem :
    (∀ (asns : List (Int × ASNSummaryData)) (addr : AddressInfo),
        addr.cidrStr = [] → updateStep asns addr = asns)
    ∧ (∀ a1 a2 a3 : AddressInfo,
        a1.cidrStr = ("10.0.0.0/24").data → a2.cidrStr = ("10.0.0.0/24").data →
        a3.cidrStr = ("10.0.0.0/24").data →
        a1.asn = 64512 → a2.asn = 64512 → a3.asn = 64512 →
        (mapGet (updateSummaryData [a1, a2, a3] []) 64512).map
            (fun d => mapGet d.netblocks (("10.0.0.0/24").data)) = some (some 3)) := by
  constructor
  · intro asns addr h
    simp [updateStep, h]
  · intro a1 a2 a3 h1 h2 h3 n1 n2 n3
    exact updateSummaryData_three_same _ (by decide) _ a1 a2 a3 h1 h2 h3 n1 n2 n3

/-- C8 witness: the empty-CIDR skip and the three-record count evaluated on
concrete address records. -/
theorem c8_witness :
    updateStep [(64512, ⟨("Org A").data, [(("10.0.0.0/24").data, 1)]⟩)]
        ⟨("1.2.3.9").data, [], 64512, ("Org B").data⟩
      = [(64512, ⟨("Org A").data, [(("10.0.0.0/24").data, 1)]⟩)]
    ∧ (mapGet (updateSummaryData
          [⟨("1.2.3.4").data, ("10.0.0.0/24").data, 64512, ("Org A").data⟩,
           ⟨("1.2.3.5").data, ("10.0.0.0/24").data, 64512, ("Org B").data⟩,
           ⟨("1.2.3.6").data, ("10.0.0.0/24").data, 64512, ("Org C").data⟩] []) 64512).map
        (fun d => mapGet d.netblocks (("10.0.0.0/24").data)) = some (some 3) :=
  ⟨c8_theorem.1 _ _ rfl, c8_theorem.2 _ _ _ rfl rfl rfl rfl rfl rfl⟩

/-- C9: any line splitting into fewer than three segments on `" --> "` leaves
the whole parser state — the ASN mapping and the FQDN resolution map —
exactly unchanged. -/
theorem c9_theorem (st : SummaryState) (line : List Char)
    (h : (goSplit line sepArrow).length < 3) :
    processRecord st line = some st := by
  unfold processRecord
  simp [h]

/-- C9 witness: a separator-free line against a non-empty state. -/
theorem c9_witness :
    processRecord
        ⟨[(("15133").data, ⟨("Org").data, [("10.0.0.0/8").data], []⟩)],
         [(("a.com (FQDN)").data, ("1.2.3.4 (IPAddress)").data)]⟩
        ("no separators here").data
      = some ⟨[(("15133").data, ⟨("Org").data, [("10.0.0.0/8").data], []⟩)],
          [(("a.com (FQDN)").data, ("1.2.3.4 (IPAddress)").data)]⟩ :=
  c9_theorem _ _ (by decide)

/-- C10: duplicate FQDN resolution is last-write-wins: after two valid lines
with the same FQDN-tagged left label, the FQDN map sends that label to the
second line's right-hand value; by contrast, the structured path's
organization attribution is first-seen-wins (the second record's description
is ignored for an already-known ASN). -/
theorem c10_theorem :
    (∀ (st : SummaryState) (l1 l2 lf v1 v2 : List Char),
      3 ≤ (goSplit l1 sepArrow).length →
      3 ≤ (goSplit l2 sepArrow).length →
      trimSpace ((goSplit l1 sepArrow).getD 0 []) = lf →
      trimSpace ((goSplit l2 sepArrow).getD 0 []) = lf →
      trimSpace ((goSplit l1 sepArrow).getD 2 []) = v1 →
      trimSpace ((goSplit l2 sepArrow).getD 2 []) = v2 →
      hasSuffix lf fqdnTag = true →
      hasSuffix lf asnTag = false →
      hasSuffix v1 netblockTag = false →
      hasSuffix v2 netblockTag = false →
      (runRecords st [l1, l2]).map (fun s => mapGet s.fqdns lf) = some (some v2))
    ∧ (∀ a1 a2 : AddressInfo,
        a1.asn = a2.asn → a1.cidrStr ≠ [] → a2.cidrStr ≠ [] →
        (mapGet (updateSummaryData [a1, a2] []) a1.asn).map ASNSummaryData.name
          = some a1.description) := by
  constructor
  · intro st l1 l2 lf v1 v2 h31 h32 hlf1 hlf2 hv1 hv2 hfq hasnF hnb1 hnb2
    cases hip1 : hasSuffix v1 ipTag with
    | true =>
      have hp1 := processRecord_fqdn_ip st l1 lf v1 h31 hlf1 hv1 hnb1 hasnF hfq hip1
      cases hip2 : hasSuffix v2 ipTag with
      | true =>
        have hp2 := processRecord_fqdn_ip
          { st with
              fqdns := mapSet st.fqdns lf v1
              asns := st.asns.map fun kv =>
                (kv.1, { kv.2 with fqdns := kv.2.fqdns ++ [lf] }) }
          l2 lf v2 h32 hlf2 hv2 hnb2 hasnF hfq hip2
        simp [runRecords, hp1, hp2, mapGet_mapSet_self]
      | false =>
        have hp2 := processRecord_fqdn_alias
          { st with
              fqdns := mapSet st.fqdns lf v1
              asns := st.asns.map fun kv =>
                (kv.1, { kv.2 with fqdns := kv.2.fqdns ++ [lf] }) }
          l2 lf v2 h32 hlf2 hv2 hnb2 hasnF hfq hip2
        simp [runRecords, hp1, hp2, mapGet_mapSet_self]
    | false =>
      have hp1 := processRecord_fqdn_alias st l1 lf v1 h31 hlf1 hv1 hnb1 hasnF hfq hip1
      cases hip2 : hasSuffix v2 ipTag with
      | true =>
        have hp2 := processRecord_fqdn_ip
          { st with fqdns := mapSet st.fqdns lf v1 }
          l2 lf v2 h32 hlf2 hv2 hnb2 hasnF hfq hip2
        simp [runRecords, hp1, hp2, mapGet_mapSet_self]
      | false =>
        have hp2 := processRecord_fqdn_alias
          { st with fqdns := mapSet st.fqdns lf v1 }
          l2 lf v2 h32 hlf2 hv2 hnb2 hasnF hfq hip2
        simp [runRecords, hp1, hp2, mapGet_mapSet_self]
  · intro a1 a2 hasn hc1 hc2
    obtain ⟨ad1, c1, x1, d1⟩ := a1
    obtain ⟨ad2, c2, x2, d2⟩ := a2
    simp only at hasn hc1 hc2 ⊢
    subst hasn
    simp [updateSummaryData, updateStep, mapGet, mapSet, incrKey, hc1, hc2]

/-- C10 witness: the same FQDN label resolved first to an IP, then re-resolved
to an alias — the map holds the later value — and two same-ASN records with
conflicting descriptions — the summary keeps the first. -/
theorem c10_witness :
    (runRecords ⟨[], []⟩
        [("a.com (FQDN) --> node --> 1.2.3.4 (IPAddress)").data,
         ("a.com (FQDN) --> node --> b.com (FQDN)").data]).map
        (fun s => mapGet s.fqdns (("a.com (FQDN)").data))
      = some (some (("b.com (FQDN)").data))
    ∧ (mapGet (updateSummaryData
          [⟨("1.2.3.4").data, ("10.0.0.0/24").data, 64512, ("Org A").data⟩,
           ⟨("1.2.3.5").data, ("10.0.0.0/24").data, 64512, ("Org B").data⟩] []) 64512).map
        ASNSummaryData.name = some (("Org A").data) :=
  ⟨c10_theorem.1 ⟨[], []⟩ _ _ (("a.com (FQDN)").data)
      (("1.2.3.4 (IPAddress)").data) (("b.com (FQDN)").data)
      (by decide) (by decide) (by decide) (by decide) (by decide) (by decide)
      (by decide) (by decide) (by decide) (by decide),
   c10_theorem.2 _ _ rfl (by decide) (by decide)⟩
